import Mathlib

/-!
Shallow embedding of the github-email-scraper resolution workflow.

The server route (`POST /api/emails`) resolves each input name through three
GitHub REST endpoints: commit search, user/org profile lookup, and paginated
org-member listing.  We model the external world as an `Env` mapping each
request to its response, and every embedded function additionally returns the
list of external calls it performed (its trace), so that claims about which
calls happen (and how many) can be stated.

JavaScript conventions captured here:
  - a string field that may be missing/null is an `Option String`; JS
    truthiness of such a field (`if (x)`) is `strTruthy` (missing and `""` are
    falsy);
  - `promise.catch(() => d)` on our `Except String` results is `orDefault`;
  - the `while (true)` pagination loop is given a fuel parameter to make it
    total; every statement about it holds for sufficient fuel;
  - `Promise.all` over a chunk of 5 members is modelled as left-to-right
    evaluation of the chunk (the settled values are deterministic; the trace
    order is one admissible interleaving).
-/

/-- JS truthiness of a possibly-missing string field: `undefined`, `null` and
`""` are falsy. -/
def strTruthy : Option String → Bool
  | some s => s ≠ ""
  | none => false

/-- `promise.catch(() => d)`: replace a rejection by the default value. -/
def orDefault {α : Type} (d : α) : Except String α → α
  | .ok a => a
  | .error _ => d

/-- One item of the commit-search response: `it?.commit?.author?.email` and
`it?.commit?.author?.name` (missing path ↦ `none`). -/
structure CommitItem where
  email : Option String
  name : Option String
deriving DecidableEq

/-- Response of `GET /search/commits?q=author:{u}`. -/
inductive CommitSearchResp
  | status422
  | status403
  | notOk
  | ok (items : List CommitItem)
deriving DecidableEq

/-- Response of `GET /users/{name}` (shared by `checkIsOrg` and
`getUserProfile`): `data.type`, `data.name`, `data.email`. Any non-success
status is `notOk`. -/
inductive ProfileResp
  | notOk
  | ok (ptype : String) (name : Option String) (email : Option String)
deriving DecidableEq

/-- Response of `GET /orgs/{org}/members?per_page=100&page={p}`: entries are the
`m?.login` fields (missing ↦ `none`).  A non-array success body behaves exactly
like `ok []` (both break before collecting), so `ok` covers it. -/
inductive MembersResp
  | status404
  | status403
  | notOk
  | ok (data : List (Option String))
deriving DecidableEq

/-- The external world: what each GitHub endpoint answers. -/
structure Env where
  commitSearch : String → CommitSearchResp
  userProfile : String → ProfileResp
  orgMembers : String → Nat → MembersResp

/-- An external call, as recorded in a trace.  `orgMembers org 100 page`
records the `per_page=100` query parameter the code always sends. -/
inductive ApiCall
  | commitSearch (user : String)
  | userProfile (user : String)
  | orgMembers (org : String) (perPage : Nat) (page : Nat)
deriving DecidableEq

/-- `function dedupe<T extends string>(arr)`: insertion-ordered first-occurrence
deduplication via a `seen` set (modelled as the list of seen values; `Set.has`
is list membership). -/
def dedupeAux (seen : List String) : List String → List String
  | [] => []
  | v :: rest =>
    if v ∈ seen then dedupeAux seen rest
    else v :: dedupeAux (v :: seen) rest

def dedupe (arr : List String) : List String := dedupeAux [] arr

/-- Error message thrown by `tryCommitEmail` on HTTP 403. -/
def rateLimitMsg : String := "GitHub API rate limit exceeded or forbidden (403). Add or rotate a token."

/-- Error message thrown by `getOrgMembers` on HTTP 403. -/
def orgForbiddenMsg : String := "Org members forbidden or rate limited (403)."

/-- Result of `tryCommitEmail`: `{ emails: string[], name?: string }`. -/
structure CommitResult where
  emails : List String
  name : Option String
deriving DecidableEq

/-- The `for (const it of items)` loop collecting truthy author emails. -/
def collectEmails : List CommitItem → List String
  | [] => []
  | it :: rest =>
    match it.email with
    | some e => if e ≠ "" then e :: collectEmails rest else collectEmails rest
    | none => collectEmails rest

/-- The first truthy author name among the items
(`if (!authorName && it?.commit?.author?.name) ...`). -/
def firstAuthorName : List CommitItem → Option String
  | [] => none
  | it :: rest => if strTruthy it.name then it.name else firstAuthorName rest

/-- `tryCommitEmail(username)`: 422 ↦ `null`; 403 ↦ throw; other non-success ↦
`null`; no items ↦ `null`; otherwise the deduplicated emails and the first
author name. -/
def tryCommitEmail (env : Env) (username : String) :
    Except String (Option CommitResult) × List ApiCall :=
  let trace := [ApiCall.commitSearch username]
  match env.commitSearch username with
  | .status422 => (.ok none, trace)
  | .status403 => (.error rateLimitMsg, trace)
  | .notOk => (.ok none, trace)
  | .ok items =>
    if items.isEmpty then (.ok none, trace)
    else (.ok (some ⟨dedupe (collectEmails items), firstAuthorName items⟩), trace)

/-- `checkIsOrg(name)`: non-success ↦ `false`; otherwise `data.type ===
"Organization"` (never throws). -/
def checkIsOrg (env : Env) (name : String) : Bool × List ApiCall :=
  let trace := [ApiCall.userProfile name]
  match env.userProfile name with
  | .notOk => (false, trace)
  | .ok t _ _ => (t == "Organization", trace)

/-- Profile data returned by `getUserProfile`. -/
structure Profile where
  name : Option String
  email : Option String
deriving DecidableEq

/-- `getUserProfile(username)`: non-success ↦ `null`; otherwise the name and
email fields (never throws). -/
def getUserProfile (env : Env) (username : String) :
    Option Profile × List ApiCall :=
  let trace := [ApiCall.userProfile username]
  match env.userProfile username with
  | .notOk => (none, trace)
  | .ok _ n e => (some ⟨n, e⟩, trace)

/-- `if (m?.login) members.push({ login: m.login })` over one page of data. -/
def pageLogins (data : List (Option String)) : List String :=
  data.filterMap fun m =>
    match m with
    | some s => if s ≠ "" then some s else none
    | none => none

/-- `const perPage = 100`. -/
def perPage : Nat := 100

/-- The `while (true)` pagination loop of `getOrgMembers`, with fuel.
404 / other non-success / empty page (or non-array body) break; a short page
(`data.length < perPage`) breaks after collecting; 403 throws; otherwise the
next page is fetched. -/
def getOrgMembersAux (env : Env) (org : String) :
    Nat → Nat → List String → Except String (List String) × List ApiCall
  | 0, _, acc => (.ok acc, [])
  | fuel + 1, page, acc =>
    let call := ApiCall.orgMembers org perPage page
    match env.orgMembers org page with
    | .status404 => (.ok acc, [call])
    | .status403 => (.error orgForbiddenMsg, [call])
    | .notOk => (.ok acc, [call])
    | .ok data =>
      if data.isEmpty then (.ok acc, [call])
      else
        let newAcc := acc ++ pageLogins data
        if data.length < perPage then (.ok newAcc, [call])
        else
          let r := getOrgMembersAux env org fuel (page + 1) newAcc
          (r.fst, call :: r.snd)

/-- `getOrgMembers(org)`: paginate from page 1 with an empty accumulator. -/
def getOrgMembers (env : Env) (org : String) (fuel : Nat) :
    Except String (List String) × List ApiCall :=
  getOrgMembersAux env org fuel 1 []

/-- `https://github.com/{login}`. -/
def profileUrlOf (login : String) : String := "https://github.com/" ++ login

/-- One row of the response: `{ login, name, profileUrl, emails }`. -/
structure ResolvedUser where
  login : String
  name : Option String
  profileUrl : String
  emails : List String
deriving DecidableEq

/-- One result record: `{ input, type: "user" | "org", users }`. -/
structure ResolvedEntity where
  input : String
  type : String
  users : List ResolvedUser
deriving DecidableEq

/-- `profile?.email ? [profile.email] : []`. -/
def profileEmailList (profile : Option Profile) : List String :=
  match profile with
  | some p =>
    match p.email with
    | some e => if e ≠ "" then [e] else []
    | none => []
  | none => []

/-- Enrichment of a single org member inside `Promise.all`: profile lookup
(failure ↦ `null`), then commit search (failure, including 403, ↦ `null`),
then merge: profile email first, commit emails after, deduplicated. -/
def enrichMember (env : Env) (login : String) : ResolvedUser × List ApiCall :=
  let (profile, t1) := getUserProfile env login
  let profileEmail := profileEmailList profile
  let (commitR, t2) := tryCommitEmail env login
  let commitResult := orDefault none commitR
  let commitEmails :=
    match commitResult with
    | some r => r.emails
    | none => []
  (⟨login, profile.bind Profile.name, profileUrlOf login,
    dedupe (profileEmail ++ commitEmails)⟩, t1 ++ t2)

/-- `Promise.all(chunk.map(...))`: enrich every member of one chunk. -/
def enrichChunk (env : Env) : List String → List ResolvedUser × List ApiCall
  | [] => ([], [])
  | m :: rest =>
    let (u, t) := enrichMember env m
    let (us, ts) := enrichChunk env rest
    (u :: us, t ++ ts)

/-- The `for (let i = 0; i < members.length; i += batchSize)` loop: slices of 5
members, each chunk enriched, results appended in order. -/
def processMembers (env : Env) (ms : List String) :
    List ResolvedUser × List ApiCall :=
  match ms with
  | [] => ([], [])
  | m :: rest =>
    let (us, t) := enrichChunk env ((m :: rest).take 5)
    let (us2, t2) := processMembers env (rest.drop 4)
    (us ++ us2, t ++ t2)
termination_by ms.length
decreasing_by simp [List.length_drop]; omega

/-- `userEmail?.emails?.length` as a JS condition: truthy iff the commit result
settled to a non-null object with a non-empty email list. -/
def commitEmailsFound (userEmail : Option CommitResult) : Bool :=
  match userEmail with
  | some r => !r.emails.isEmpty
  | none => false

/-- The continuation of `resolveName` once commit-based discovery found no
emails: org check, then either the profile-enriched individual or the org
branch. -/
def resolveRest (env : Env) (fuel : Nat) (name : String) :
    ResolvedEntity × List ApiCall :=
  let (isOrg, t2) := checkIsOrg env name
  if !isOrg then
    let (profile, t3) := getUserProfile env name
    (⟨name, "user",
      [⟨name, profile.bind Profile.name, profileUrlOf name,
        dedupe (profileEmailList profile)⟩]⟩, t2 ++ t3)
  else
    let (membersR, t3) := getOrgMembers env name fuel
    let members := orDefault [] membersR
    let (users, t4) := processMembers env members
    (⟨name, "org", users⟩, t2 ++ t3 ++ t4)

/-- `resolveName(name)`: commit search first (`.catch(() => null)` swallows the
403 throw), individual if any email was found, otherwise `resolveRest`. -/
def resolveName (env : Env) (fuel : Nat) (name : String) :
    ResolvedEntity × List ApiCall :=
  let (ue, t1) := tryCommitEmail env name
  let userEmail := orDefault none ue
  match userEmail with
  | some r =>
    if !r.emails.isEmpty then
      (⟨name, "user",
        [⟨name, r.name, profileUrlOf name, dedupe r.emails⟩]⟩, t1)
    else
      let (e, t) := resolveRest env fuel name
      (e, t1 ++ t)
  | none =>
    let (e, t) := resolveRest env fuel name
    (e, t1 ++ t)

/-- The `for (const name of raw)` loop of the POST handler: strictly
sequential, results pushed in order. -/
def runBatch (env : Env) (fuel : Nat) :
    List String → List ResolvedEntity × List ApiCall
  | [] => ([], [])
  | n :: rest =>
    let (r, t) := resolveName env fuel n
    let (rs, ts) := runBatch env fuel rest
    (r :: rs, t ++ ts)

/-- JS `String.prototype.trim` over the character list (so it evaluates in the
kernel): drops leading and trailing whitespace. -/
def isJsSpace (c : Char) : Bool := c = ' ' ∨ c = '\t' ∨ c = '\n' ∨ c = '\r'

def jsTrim (s : String) : String :=
  String.mk (((s.data.dropWhile isJsSpace).reverse.dropWhile isJsSpace).reverse)

/-- JS `String.prototype.split` on a character class, over the character list;
keeps empty segments, and splitting the empty string yields one empty
segment, as in JS. -/
def splitCharsAux (sep : Char → Bool) : List Char → List Char → List (List Char)
  | [], acc => [acc.reverse]
  | c :: cs, acc =>
    if sep c then acc.reverse :: splitCharsAux sep cs []
    else splitCharsAux sep cs (c :: acc)

def jsSplit (sep : Char → Bool) (s : String) : List String :=
  (splitCharsAux sep s.data []).map String.mk

/-- The HTTP response of the route: status code, `ok` flag, `results`,
`error`. -/
structure ApiResponse where
  status : Nat
  ok : Bool
  results : List ResolvedEntity
  error : Option String
deriving DecidableEq

/-- `POST(req)` over an already-parsed body (`try/catch` only guards body
parsing and the loop, and `resolveName` never rejects — every inner rejection
is caught — so the handler always reaches the 200 response): trim, drop blank
names, resolve each in order. -/
def POST (env : Env) (fuel : Nat) (inputs : List String) :
    ApiResponse × List ApiCall :=
  let raw := (inputs.map jsTrim).filter (· ≠ "")
  let (results, trace) := runBatch env fuel raw
  (⟨200, true, results, none⟩, trace)

/-- `handleRun`'s input parsing: `input.split(/[\n,]/g).map(trim).filter(Boolean)`. -/
def parseInput (s : String) : List String :=
  ((jsSplit (fun c => c = '\n' ∨ c = ',') s).map jsTrim).filter (· ≠ "")

/-- `handleRun`'s guard before fetching: an empty parsed list sets the error
message and sends no request; otherwise the request body is sent. -/
def handleRunDecision (s : String) : Option (List String) × Option String :=
  let inputs := parseInput s
  if inputs.isEmpty then
    (none, some "Please enter at least one GitHub username or organization.")
  else (some inputs, none)

/-- The settled value of `tryCommitEmail(name).catch(() => null)`. -/
def commitResultOf (env : Env) (login : String) : Option CommitResult :=
  orDefault none (tryCommitEmail env login).fst

/-- The display name `profile?.name ?? null` of a login's profile lookup. -/
def profileNameOf (env : Env) (login : String) : Option String :=
  ((getUserProfile env login).fst).bind Profile.name

/-- The commit emails contributed to a member's enrichment
(`commitResult?.emails ?? []`). -/
def commitEmailsOf (env : Env) (login : String) : List String :=
  match orDefault none (tryCommitEmail env login).fst with
  | some r => r.emails
  | none => []

/-- The member list an org resolution enriches:
`getOrgMembers(name).catch(() => [])`. -/
def orgMemberList (env : Env) (fuel : Nat) (name : String) : List String :=
  orDefault [] (getOrgMembers env name fuel).fst

/-- A world whose commit-search endpoint is rate limited (403 everywhere). -/
def env403 : Env where
  commitSearch := fun _ => .status403
  userProfile := fun _ => .notOk
  orgMembers := fun _ _ => .status404

/-- A world where commit search returns one commit item carrying no author
email, and the profile endpoint reports an organization. -/
def envOrgHit : Env where
  commitSearch := fun _ => .ok [⟨none, none⟩]
  userProfile := fun _ => .ok ("Organization") none none
  orgMembers := fun _ _ => .status404

/-- A world with one org whose single member has a failing profile lookup but
a successful commit search. -/
def memberEnv : Env where
  commitSearch := fun u =>
    if u = ("mia") then .ok [⟨some ("mia@x.io"), some ("Mia")⟩] else .status422
  userProfile := fun u =>
    if u = ("acme") then .ok ("Organization") none none else .notOk
  orgMembers := fun _ page => if page = 1 then .ok [some ("mia")] else .status404

/-- A world whose member listing serves pages of sizes 100, 100, 37. -/
def pagedEnv : Env where
  commitSearch := fun _ => .status422
  userProfile := fun _ => .ok ("Organization") none none
  orgMembers := fun _ page =>
    if page = 1 then .ok (List.replicate 100 (some ("m1")))
    else if page = 2 then .ok (List.replicate 100 (some ("m2")))
    else if page = 3 then .ok (List.replicate 37 (some ("m3")))
    else .status404

/-! ### Lemmas about `dedupe` -/

theorem dedupeAux_congr (xs : List String) :
    ∀ s t : List String, (∀ a, a ∈ s ↔ a ∈ t) →
      dedupeAux s xs = dedupeAux t xs := by
  induction xs with
  | nil => intro s t _; rfl
  | cons v rest ih =>
    intro s t h
    by_cases hv : v ∈ s
    · rw [dedupeAux, dedupeAux, if_pos hv, if_pos ((h v).mp hv)]
      exact ih s t h
    · rw [dedupeAux, dedupeAux, if_neg hv, if_neg (fun hc => hv ((h v).mpr hc))]
      refine congrArg _ (ih _ _ fun a => ?_)
      simp only [List.mem_cons]
      exact or_congr Iff.rfl (h a)

theorem dedupeAux_cons_seen (x : String) (xs : List String) :
    ∀ seen : List String,
      dedupeAux (x :: seen) xs = dedupeAux seen (xs.filter (· ≠ x)) := by
  induction xs with
  | nil => intro seen; rfl
  | cons v rest ih =>
    intro seen
    by_cases hvx : v = x
    · subst hvx
      rw [dedupeAux, if_pos (List.mem_cons_self v seen),
        List.filter_cons_of_neg (by simp)]
      exact ih seen
    · rw [List.filter_cons_of_pos (by simp [hvx])]
      by_cases hv : v ∈ seen
      · rw [dedupeAux, if_pos (List.mem_cons_of_mem x hv), dedupeAux, if_pos hv]
        exact ih seen
      · rw [dedupeAux, if_neg (by simp [hvx, hv]), dedupeAux, if_neg hv]
        refine congrArg _ ?_
        rw [dedupeAux_congr rest (v :: x :: seen) (x :: v :: seen)
          (fun a => by simp only [List.mem_cons]; tauto)]
        exact ih (v :: seen)

theorem dedupe_cons (x : String) (xs : List String) :
    dedupe (x :: xs) = x :: dedupe (xs.filter (· ≠ x)) := by
  rw [dedupe, dedupeAux, if_neg (List.not_mem_nil x)]
  exact congrArg _ (dedupeAux_cons_seen x xs [])

theorem mem_dedupeAux (xs : List String) :
    ∀ (seen : List String) (a : String),
      a ∈ dedupeAux seen xs ↔ a ∈ xs ∧ a ∉ seen := by
  induction xs with
  | nil => intro seen a; simp [dedupeAux]
  | cons v rest ih =>
    intro seen a
    by_cases hv : v ∈ seen
    · rw [dedupeAux, if_pos hv, ih]
      simp only [List.mem_cons]
      constructor
      · exact fun ⟨h1, h2⟩ => ⟨Or.inr h1, h2⟩
      · rintro ⟨h1 | h1, h2⟩
        · exact absurd (h1 ▸ hv) h2
        · exact ⟨h1, h2⟩
    · rw [dedupeAux, if_neg hv]
      simp only [List.mem_cons, ih, List.mem_cons]
      constructor
      · rintro (h | ⟨h1, h2⟩)
        · exact ⟨Or.inl h, h ▸ hv⟩
        · exact ⟨Or.inr h1, fun hc => h2 (Or.inr hc)⟩
      · rintro ⟨h1 | h1, h2⟩
        · exact Or.inl h1
        · by_cases hav : a = v
          · exact Or.inl hav
          · exact Or.inr ⟨h1, by simp [hav, h2]⟩

theorem dedupeAux_nodup (xs : List String) :
    ∀ seen : List String, (dedupeAux seen xs).Nodup := by
  induction xs with
  | nil => intro seen; exact List.nodup_nil
  | cons v rest ih =>
    intro seen
    by_cases hv : v ∈ seen
    · rw [dedupeAux, if_pos hv]; exact ih seen
    · rw [dedupeAux, if_neg hv]
      refine List.Nodup.cons ?_ (ih (v :: seen))
      intro hc
      exact ((mem_dedupeAux rest (v :: seen) v).mp hc).2 (List.mem_cons_self v seen)

theorem dedupeAux_sublist (xs : List String) :
    ∀ seen : List String, (dedupeAux seen xs).Sublist xs := by
  induction xs with
  | nil => intro seen; exact List.Sublist.refl []
  | cons v rest ih =>
    intro seen
    by_cases hv : v ∈ seen
    · rw [dedupeAux, if_pos hv]; exact (ih seen).cons v
    · rw [dedupeAux, if_neg hv]; exact (ih (v :: seen)).cons₂ v

theorem dedupeAux_eq_self (xs : List String) :
    ∀ seen : List String, xs.Nodup → (∀ a ∈ xs, a ∉ seen) →
      dedupeAux seen xs = xs := by
  induction xs with
  | nil => intro seen _ _; rfl
  | cons v rest ih =>
    intro seen hnd hout
    rw [dedupeAux, if_neg (hout v (List.mem_cons_self v rest))]
    refine congrArg _ (ih (v :: seen) (List.Nodup.of_cons hnd) ?_)
    intro a ha
    simp only [List.mem_cons]
    rintro (rfl | hc)
    · exact (List.nodup_cons.mp hnd).1 ha
    · exact hout a (List.mem_cons_of_mem v ha) hc

theorem dedupe_nodup (xs : List String) : (dedupe xs).Nodup :=
  dedupeAux_nodup xs []

theorem dedupe_sublist (xs : List String) : (dedupe xs).Sublist xs :=
  dedupeAux_sublist xs []

theorem mem_dedupe (xs : List String) (a : String) :
    a ∈ dedupe xs ↔ a ∈ xs := by
  rw [dedupe, mem_dedupeAux]
  simp

theorem dedupe_eq_self_of_nodup (xs : List String) (h : xs.Nodup) :
    dedupe xs = xs :=
  dedupeAux_eq_self xs [] h (fun a _ => List.not_mem_nil a)

theorem dedupe_idem (xs : List String) : dedupe (dedupe xs) = dedupe xs :=
  dedupe_eq_self_of_nodup (dedupe xs) (dedupe_nodup xs)

theorem dedupe_ne_nil (xs : List String) (h : xs ≠ []) : dedupe xs ≠ [] := by
  cases xs with
  | nil => exact absurd rfl h
  | cons x rest => rw [dedupe_cons]; exact List.cons_ne_nil x _

/-! ### Structural lemmas about the resolver -/

theorem enrichMember_fst (env : Env) (login : String) :
    (enrichMember env login).fst =
      ⟨login, profileNameOf env login, profileUrlOf login,
        dedupe (profileEmailList (getUserProfile env login).fst ++
          commitEmailsOf env login)⟩ := rfl

theorem enrichChunk_users (env : Env) (l : List String) :
    (enrichChunk env l).fst = l.map fun m => (enrichMember env m).fst := by
  induction l with
  | nil => rfl
  | cons m rest ih => simp [enrichChunk, ih]

theorem processMembers_users (env : Env) (ms : List String) :
    (processMembers env ms).fst = ms.map fun m => (enrichMember env m).fst := by
  induction ms using processMembers.induct env with
  | case1 => rw [processMembers]; rfl
  | case2 m rest a b hab c d hcd ih =>
    rw [processMembers]
    simp only [enrichChunk_users, ih]
    rw [← List.map_append, show rest.drop 4 = (m :: rest).drop 5 from rfl,
      List.take_append_drop]

theorem tryCommitEmail_trace (env : Env) (u : String) :
    (tryCommitEmail env u).snd = [ApiCall.commitSearch u] := by
  unfold tryCommitEmail
  cases env.commitSearch u with
  | status422 => rfl
  | status403 => rfl
  | notOk => rfl
  | ok items => by_cases h : items.isEmpty <;> simp [h]

theorem checkIsOrg_trace (env : Env) (u : String) :
    (checkIsOrg env u).snd = [ApiCall.userProfile u] := by
  unfold checkIsOrg
  cases env.userProfile u <;> rfl

theorem getUserProfile_trace (env : Env) (u : String) :
    (getUserProfile env u).snd = [ApiCall.userProfile u] := by
  unfold getUserProfile
  cases env.userProfile u <;> rfl

theorem resolveName_found (env : Env) (fuel : Nat) (name : String)
    (hfound : commitEmailsFound (commitResultOf env name) = true) :
    ∃ r, commitResultOf env name = some r ∧
      resolveName env fuel name =
        (⟨name, "user", [⟨name, r.name, profileUrlOf name, dedupe r.emails⟩]⟩,
          [ApiCall.commitSearch name]) := by
  cases hr : commitResultOf env name with
  | none => rw [hr] at hfound; simp [commitEmailsFound] at hfound
  | some r =>
    have hne : (!r.emails.isEmpty) = true := by
      rw [hr] at hfound; simpa [commitEmailsFound] using hfound
    refine ⟨r, rfl, ?_⟩
    rcases hTE : tryCommitEmail env name with ⟨ue, t1⟩
    have hue : orDefault none ue = some r := by
      rw [commitResultOf, hTE] at hr; exact hr
    have ht1 : t1 = [ApiCall.commitSearch name] := by
      have h2 := tryCommitEmail_trace env name; rw [hTE] at h2; exact h2
    unfold resolveName
    rw [hTE]
    dsimp only
    rw [hue]
    subst ht1
    simp [hne]

theorem resolveRest_notOrg (env : Env) (fuel : Nat) (name : String)
    (h : (checkIsOrg env name).fst = false) :
    resolveRest env fuel name =
      (⟨name, "user",
        [⟨name, profileNameOf env name, profileUrlOf name,
          dedupe (profileEmailList (getUserProfile env name).fst)⟩]⟩,
        [ApiCall.userProfile name, ApiCall.userProfile name]) := by
  rcases hCI : checkIsOrg env name with ⟨isOrg, t2⟩
  have hio : isOrg = false := by rw [hCI] at h; exact h
  have ht2 : t2 = [ApiCall.userProfile name] := by
    have h2 := checkIsOrg_trace env name; rw [hCI] at h2; exact h2
  rcases hGP : getUserProfile env name with ⟨profile, t3⟩
  have ht3 : t3 = [ApiCall.userProfile name] := by
    have h2 := getUserProfile_trace env name; rw [hGP] at h2; exact h2
  unfold resolveRest
  rw [hCI, hGP]
  subst hio ht2 ht3
  simp [profileNameOf, hGP]

theorem resolveRest_org (env : Env) (fuel : Nat) (name : String)
    (h : (checkIsOrg env name).fst = true) :
    resolveRest env fuel name =
      (⟨name, "org", (processMembers env (orgMemberList env fuel name)).fst⟩,
        ApiCall.userProfile name :: ((getOrgMembers env name fuel).snd ++
          (processMembers env (orgMemberList env fuel name)).snd)) := by
  rcases hCI : checkIsOrg env name with ⟨isOrg, t2⟩
  have hio : isOrg = true := by rw [hCI] at h; exact h
  have ht2 : t2 = [ApiCall.userProfile name] := by
    have h2 := checkIsOrg_trace env name; rw [hCI] at h2; exact h2
  rcases hGM : getOrgMembers env name fuel with ⟨membersR, t3⟩
  rcases hPM : processMembers env (orDefault [] membersR) with ⟨users, t4⟩
  have hml : orgMemberList env fuel name = orDefault [] membersR := by
    rw [orgMemberList, hGM]
  unfold resolveRest
  rw [hCI]
  subst hio ht2
  dsimp only
  rw [hGM]
  dsimp only
  rw [hml, hPM]
  simp

theorem resolveName_notFound (env : Env) (fuel : Nat) (name : String)
    (hfound : commitEmailsFound (commitResultOf env name) = false) :
    resolveName env fuel name =
      ((resolveRest env fuel name).fst,
        ApiCall.commitSearch name :: (resolveRest env fuel name).snd) := by
  rcases hTE : tryCommitEmail env name with ⟨ue, t1⟩
  have ht1 : t1 = [ApiCall.commitSearch name] := by
    have h2 := tryCommitEmail_trace env name; rw [hTE] at h2; exact h2
  rcases hRR : resolveRest env fuel name with ⟨e, t⟩
  unfold resolveName
  rw [hTE, hRR]
  dsimp only
  subst ht1
  cases hr : commitResultOf env name with
  | none =>
    have hue : orDefault none ue = none := by
      rw [commitResultOf, hTE] at hr; exact hr
    rw [hue]
    rfl
  | some r =>
    have hne : (!r.emails.isEmpty) = false := by
      rw [hr] at hfound; simpa [commitEmailsFound] using hfound
    have hue : orDefault none ue = some r := by
      rw [commitResultOf, hTE] at hr; exact hr
    rw [hue]
    simp [hne]

theorem resolveName_input (env : Env) (fuel : Nat) (name : String) :
    (resolveName env fuel name).fst.input = name := by
  cases hf : commitEmailsFound (commitResultOf env name) with
  | true =>
    obtain ⟨r, _, h⟩ := resolveName_found env fuel name hf
    rw [h]
  | false =>
    rw [resolveName_notFound env fuel name hf]
    cases ho : (checkIsOrg env name).fst with
    | false => rw [resolveRest_notOrg env fuel name ho]
    | true => rw [resolveRest_org env fuel name ho]

theorem runBatch_inputs (env : Env) (fuel : Nat) :
    ∀ names : List String,
      (runBatch env fuel names).fst.map ResolvedEntity.input = names := by
  intro names
  induction names with
  | nil => rfl
  | cons n rest ih =>
    rcases hR : resolveName env fuel n with ⟨r, t⟩
    rcases hB : runBatch env fuel rest with ⟨rs, ts⟩
    have h1 : r.input = n := by
      have h2 := resolveName_input env fuel n; rw [hR] at h2; exact h2
    rw [hB] at ih
    unfold runBatch
    rw [hR, hB]
    dsimp only
    rw [List.map_cons, h1]
    exact congrArg _ ih

theorem runBatch_length (env : Env) (fuel : Nat) (names : List String) :
    (runBatch env fuel names).fst.length = names.length := by
  have h := runBatch_inputs env fuel names
  calc (runBatch env fuel names).fst.length
      = ((runBatch env fuel names).fst.map ResolvedEntity.input).length :=
        (List.length_map _ _).symm
    _ = names.length := by rw [h]

theorem POST_results_inputs (env : Env) (fuel : Nat) (inputs : List String) :
    (POST env fuel inputs).fst.results.map ResolvedEntity.input =
      (inputs.map jsTrim).filter (· ≠ "") := by
  rcases hB : runBatch env fuel ((inputs.map jsTrim).filter (· ≠ "")) with ⟨rs, ts⟩
  have h := runBatch_inputs env fuel ((inputs.map jsTrim).filter (· ≠ ""))
  rw [hB] at h
  unfold POST
  dsimp only
  rw [hB]
  exact h

theorem resolveName_user_emails (env : Env) (fuel : Nat) (name : String)
    (u : ResolvedUser) (hu : u ∈ (resolveName env fuel name).fst.users) :
    ∃ l, u.emails = dedupe l := by
  cases hf : commitEmailsFound (commitResultOf env name) with
  | true =>
    obtain ⟨r, _, h⟩ := resolveName_found env fuel name hf
    rw [h] at hu
    simp only [List.mem_singleton] at hu
    exact ⟨r.emails, by rw [hu]⟩
  | false =>
    rw [resolveName_notFound env fuel name hf] at hu
    cases ho : (checkIsOrg env name).fst with
    | false =>
      rw [resolveRest_notOrg env fuel name ho] at hu
      simp only [List.mem_singleton] at hu
      exact ⟨profileEmailList (getUserProfile env name).fst, by rw [hu]⟩
    | true =>
      rw [resolveRest_org env fuel name ho] at hu
      dsimp only at hu
      rw [processMembers_users] at hu
      obtain ⟨m, _, hm⟩ := List.mem_map.mp hu
      refine ⟨profileEmailList (getUserProfile env m).fst ++ commitEmailsOf env m, ?_⟩
      rw [← hm, enrichMember_fst]

/-! ### Pagination lemmas -/

theorem getOrgMembersAux_404 (env : Env) (org : String) (fuel page : Nat)
    (acc : List String) (h : env.orgMembers org page = .status404) :
    getOrgMembersAux env org (fuel + 1) page acc =
      (.ok acc, [ApiCall.orgMembers org perPage page]) := by
  conv_lhs => rw [getOrgMembersAux]
  rw [h]

theorem getOrgMembersAux_short (env : Env) (org : String) (fuel page : Nat)
    (acc : List String) (data : List (Option String))
    (h : env.orgMembers org page = .ok data) (hlen : data.length < perPage) :
    getOrgMembersAux env org (fuel + 1) page acc =
      (.ok (acc ++ pageLogins data), [ApiCall.orgMembers org perPage page]) := by
  conv_lhs => rw [getOrgMembersAux]
  rw [h]
  cases data with
  | nil => simp [pageLogins]
  | cons d ds =>
    dsimp only
    rw [if_neg (by simp), if_pos hlen]

theorem getOrgMembersAux_full (env : Env) (org : String) (fuel page : Nat)
    (acc : List String) (data : List (Option String))
    (h : env.orgMembers org page = .ok data) (hlen : perPage ≤ data.length) :
    getOrgMembersAux env org (fuel + 1) page acc =
      ((getOrgMembersAux env org fuel (page + 1) (acc ++ pageLogins data)).fst,
        ApiCall.orgMembers org perPage page ::
          (getOrgMembersAux env org fuel (page + 1) (acc ++ pageLogins data)).snd) := by
  conv_lhs => rw [getOrgMembersAux]
  rw [h]
  have hnlt : ¬ data.length < perPage := by omega
  cases data with
  | nil => rw [perPage] at hlen; simp at hlen
  | cons d ds =>
    dsimp only
    rw [if_neg (by simp), if_neg hnlt]

theorem getOrgMembers_three_pages (env : Env) (org : String) (fuel : Nat)
    (d1 d2 d3 : List (Option String))
    (h1 : env.orgMembers org 1 = .ok d1) (hl1 : d1.length = 100)
    (h2 : env.orgMembers org 2 = .ok d2) (hl2 : d2.length = 100)
    (h3 : env.orgMembers org 3 = .ok d3) (hl3 : d3.length = 37) :
    (getOrgMembers env org (fuel + 3)).snd =
      [ApiCall.orgMembers org perPage 1, ApiCall.orgMembers org perPage 2,
        ApiCall.orgMembers org perPage 3] := by
  have e3 : fuel + 3 = (fuel + 2) + 1 := by omega
  have e2 : fuel + 2 = (fuel + 1) + 1 := by omega
  rw [getOrgMembers, e3,
    getOrgMembersAux_full env org (fuel + 2) 1 [] d1 h1 (by simp [perPage, hl1]),
    e2,
    getOrgMembersAux_full env org (fuel + 1) 2 ([] ++ pageLogins d1) d2 h2
      (by simp [perPage, hl2]),
    getOrgMembersAux_short env org fuel 3 (([] ++ pageLogins d1) ++ pageLogins d2) d3 h3
      (by simp [perPage, hl3])]

/-! ### Response-shape lemmas -/

theorem POST_always_ok (env : Env) (fuel : Nat) (inputs : List String) :
    (POST env fuel inputs).fst.status = 200 ∧ (POST env fuel inputs).fst.ok = true ∧
      (POST env fuel inputs).fst.error = none := by
  unfold POST
  dsimp only
  rcases hB : runBatch env fuel ((inputs.map jsTrim).filter (· ≠ "")) with ⟨rs, ts⟩
  exact ⟨rfl, rfl, rfl⟩

theorem POST_empty_raw (env : Env) (fuel : Nat) (inputs : List String)
    (h : (inputs.map jsTrim).filter (· ≠ "") = []) :
    POST env fuel inputs = (⟨200, true, [], none⟩, []) := by
  unfold POST
  dsimp only
  rw [h]
  rfl

/-! ### Claims -/

/-- C1 counterexample: with the commit-search endpoint rate limited (403) for
every name, the batch request still succeeds with status 200, returns one
result per name, and the second name is attempted (its commit-search call
appears in the trace) — the claim's 5xx-with-zero-results behaviour does not
occur. -/
theorem c1_counterexample :
    (POST env403 1 [("alice"), ("bob")]).fst.status = 200 ∧
    (POST env403 1 [("alice"), ("bob")]).fst.ok = true ∧
    (POST env403 1 [("alice"), ("bob")]).fst.results.length = 2 ∧
    ApiCall.commitSearch ("bob") ∈ (POST env403 1 [("alice"), ("bob")]).snd := by
  decide

/-- C1 (amended): a 403 on the first top-level call (the first name's commit
search) is caught by `.catch(() => null)` inside `resolveName`; the name
degrades to the org-check path and the batch continues: the handler returns a
success response (status 200, `ok = true`) with one result per non-blank
name, in order, and the first external call of the trace is that commit
search. -/
theorem c1_rate_limit_first_call_swallowed (env : Env) (fuel : Nat)
    (name : String) (rest : List String) (htrim : jsTrim name = name)
    (hne : name ≠ "") (h403 : env.commitSearch name = .status403) :
    (POST env fuel (name :: rest)).fst.status = 200 ∧
    (POST env fuel (name :: rest)).fst.ok = true ∧
    (POST env fuel (name :: rest)).fst.results.map ResolvedEntity.input =
      name :: ((rest.map jsTrim).filter (· ≠ "")) ∧
    (POST env fuel (name :: rest)).snd.head? =
      some (ApiCall.commitSearch name) := by
  have hraw : ((name :: rest).map jsTrim).filter (· ≠ "") =
      name :: ((rest.map jsTrim).filter (· ≠ "")) := by
    rw [List.map_cons, htrim, List.filter_cons_of_pos (by simp [hne])]
  refine ⟨(POST_always_ok env fuel _).1, (POST_always_ok env fuel _).2.1, ?_, ?_⟩
  · rw [POST_results_inputs, hraw]
  · have hf : commitEmailsFound (commitResultOf env name) = false := by
      simp [commitResultOf, tryCommitEmail, h403, orDefault, commitEmailsFound]
    rcases hR : resolveName env fuel name with ⟨r, t⟩
    have ht : t = ApiCall.commitSearch name :: (resolveRest env fuel name).snd := by
      have h2 := resolveName_notFound env fuel name hf
      rw [hR] at h2
      exact congrArg Prod.snd h2
    rcases hB : runBatch env fuel ((rest.map jsTrim).filter (· ≠ "")) with ⟨rs, ts⟩
    unfold POST
    dsimp only
    rw [hraw]
    unfold runBatch
    rw [hR, hB]
    dsimp only
    rw [ht]
    rfl

/-- C1 witness: the amended statement instantiated in the all-403 world. -/
theorem c1_witness :
    jsTrim ("alice") = ("alice") ∧ (("alice") : String) ≠ ("") ∧
    env403.commitSearch ("alice") = .status403 ∧
    ((POST env403 1 [("alice"), ("bob")]).fst.status = 200 ∧
      (POST env403 1 [("alice"), ("bob")]).fst.ok = true ∧
      (POST env403 1 [("alice"), ("bob")]).fst.results.map ResolvedEntity.input =
        ("alice") :: (([("bob")].map jsTrim).filter (· ≠ "")) ∧
      (POST env403 1 [("alice"), ("bob")]).snd.head? =
        some (ApiCall.commitSearch ("alice"))) :=
  ⟨by decide, by decide, rfl,
    c1_rate_limit_first_call_swallowed env403 1 ("alice") [("bob")]
      (by decide) (by decide) rfl⟩

/-- C2 counterexample: a request whose names are all blank is not rejected
with a client-error-class response: the handler answers 200 with `ok = true`,
zero results and no error, making no external call. -/
theorem c2_counterexample :
    (POST env403 1 [("  "), ("")]).fst = ⟨200, true, [], none⟩ ∧
    (POST env403 1 [("  "), ("")]).snd = [] := by
  decide

/-- C2 (amended): an empty or all-blank input list never causes an external
call, but the server does not reject it — it returns a success response
(status 200) with zero results; the rejection with the explanatory message
happens only client-side, in `handleRun`, before any request is sent. -/
theorem c2_empty_input_not_client_error (env : Env) (fuel : Nat)
    (inputs : List String) (s : String)
    (hempty : (inputs.map jsTrim).filter (· ≠ "") = [])
    (hs : parseInput s = []) :
    POST env fuel inputs = (⟨200, true, [], none⟩, []) ∧
    handleRunDecision s =
      (none, some ("Please enter at least one GitHub username or organization.")) := by
  refine ⟨POST_empty_raw env fuel inputs hempty, ?_⟩
  unfold handleRunDecision
  dsimp only
  rw [hs]
  rfl

/-- C2 witness: the amended statement at a concrete all-blank server input
and a concrete blank client input. -/
theorem c2_witness :
    ([("  ")].map jsTrim).filter (· ≠ "") = [] ∧
    parseInput (", \n ") = [] ∧
    (POST env403 1 [("  ")] = (⟨200, true, [], none⟩, []) ∧
      handleRunDecision (", \n ") =
        (none, some ("Please enter at least one GitHub username or organization."))) :=
  ⟨by decide, by decide,
    c2_empty_input_not_client_error env403 1 [("  ")] (", \n ")
      (by decide) (by decide)⟩

/-- C3 counterexample: a commit search returning one commit item with no
author email does not yield kind individual — the resolution falls through,
consults the organization check (a profile call appears in the trace) and,
the profile being an organization, yields kind organization. -/
theorem c3_counterexample :
    (resolveName envOrgHit 1 ("acme")).fst.type = "org" ∧
    ApiCall.userProfile ("acme") ∈ (resolveName envOrgHit 1 ("acme")).snd := by
  decide

/-- C3 (amended): for every input name whose commit search returns at least
one commit item carrying a (truthy) author email, the resolution yields kind
individual and performs no further external call — in particular the
organization check is never consulted. -/
theorem c3_commit_email_hit_individual (env : Env) (fuel : Nat)
    (name : String) (items : List CommitItem)
    (hitem : env.commitSearch name = .ok items)
    (hmail : collectEmails items ≠ []) :
    (resolveName env fuel name).fst.type = "user" ∧
    (resolveName env fuel name).snd = [ApiCall.commitSearch name] := by
  have hi : items ≠ [] := by
    intro h
    rw [h] at hmail
    exact hmail rfl
  have hcr : commitResultOf env name =
      some ⟨dedupe (collectEmails items), firstAuthorName items⟩ := by
    rw [commitResultOf]
    unfold tryCommitEmail
    rw [hitem]
    dsimp only
    rw [if_neg (by simp [hi])]
    rfl
  have hf : commitEmailsFound (commitResultOf env name) = true := by
    rw [hcr]
    simp only [commitEmailsFound, Bool.not_eq_true']
    simpa [List.isEmpty_iff] using dedupe_ne_nil (collectEmails items) hmail
  obtain ⟨r, hr, h⟩ := resolveName_found env fuel name hf
  constructor
  · rw [h]
  · rw [h]

/-- C3 witness: the amended statement in a world where the commit search for
the name returns an item with an author email. -/
theorem c3_witness :
    memberEnv.commitSearch ("mia") =
      .ok [⟨some ("mia@x.io"), some ("Mia")⟩] ∧
    collectEmails [⟨some ("mia@x.io"), some ("Mia")⟩] ≠ [] ∧
    ((resolveName memberEnv 1 ("mia")).fst.type = "user" ∧
      (resolveName memberEnv 1 ("mia")).snd = [ApiCall.commitSearch ("mia")]) :=
  ⟨rfl, by decide,
    c3_commit_email_hit_individual memberEnv 1 ("mia")
      [⟨some ("mia@x.io"), some ("Mia")⟩] rfl (by decide)⟩

/-- C4: the response contains exactly one result record per non-blank trimmed
input name, in input order, with duplicates preserved: the sequence of result
`input` fields is exactly the trimmed-and-filtered input sequence. -/
theorem c4_results_match_inputs (env : Env) (fuel : Nat)
    (inputs : List String) :
    (POST env fuel inputs).fst.results.length =
      ((inputs.map jsTrim).filter (· ≠ "")).length ∧
    (POST env fuel inputs).fst.results.map ResolvedEntity.input =
      (inputs.map jsTrim).filter (· ≠ "") := by
  have h := POST_results_inputs env fuel inputs
  refine ⟨?_, h⟩
  calc (POST env fuel inputs).fst.results.length
      = ((POST env fuel inputs).fst.results.map ResolvedEntity.input).length :=
        (List.length_map _ _).symm
    _ = _ := by rw [h]

/-- C5: every ResolvedUser produced by any resolution path has a
duplicate-free emails list (case-sensitive exact comparison — the equality of
the embedding's strings). -/
theorem c5_emails_nodup (env : Env) (fuel : Nat) (name : String)
    (u : ResolvedUser) (hu : u ∈ (resolveName env fuel name).fst.users) :
    u.emails.Nodup := by
  obtain ⟨l, hl⟩ := resolveName_user_emails env fuel name u hu
  rw [hl]
  exact dedupe_nodup l

/-- C5 witness: the no-duplicates invariant at a concrete resolved user. -/
theorem c5_witness :
    ((⟨("alice"), none, profileUrlOf ("alice"), []⟩ : ResolvedUser) ∈
      (resolveName env403 1 ("alice")).fst.users) ∧
    (⟨("alice"), none, profileUrlOf ("alice"), []⟩ : ResolvedUser).emails.Nodup :=
  ⟨by decide, c5_emails_nodup env403 1 ("alice") _ (by decide)⟩

/-- C6: an input with no commit-search email hit whose profile lookup reports
type Organization resolves to kind organization. -/
theorem c6_org_profile_yields_org (env : Env) (fuel : Nat) (name : String)
    (pn pe : Option String)
    (hf : commitEmailsFound (commitResultOf env name) = false)
    (horg : env.userProfile name = .ok ("Organization") pn pe) :
    (resolveName env fuel name).fst.type = "org" := by
  have ho : (checkIsOrg env name).fst = true := by
    unfold checkIsOrg
    rw [horg]
    rfl
  rw [resolveName_notFound env fuel name hf, resolveRest_org env fuel name ho]

/-- C6 witness: the organization outcome in a concrete world with a
no-email commit hit and an Organization profile. -/
theorem c6_witness :
    commitEmailsFound (commitResultOf envOrgHit ("acme")) = false ∧
    envOrgHit.userProfile ("acme") = .ok ("Organization") none none ∧
    (resolveName envOrgHit 1 ("acme")).fst.type = "org" :=
  ⟨by decide, rfl,
    c6_org_profile_yields_org envOrgHit 1 ("acme") none none (by decide) rfl⟩

/-- C7: member enumeration requests pages with `per_page = 100` and page
numbers increasing from 1; a 404 ends enumeration returning the members
collected so far with a single fetch, a page shorter than 100 (or empty) ends
enumeration after collecting it, a full page leads to fetching the next page,
and for page sizes [100, 100, 37] exactly 3 page fetches are performed. -/
theorem c7_member_pagination (env : Env) (org : String) :
    (∀ fuel page acc, env.orgMembers org page = .status404 →
      getOrgMembersAux env org (fuel + 1) page acc =
        (.ok acc, [ApiCall.orgMembers org perPage page])) ∧
    (∀ fuel page acc data, env.orgMembers org page = .ok data →
      data.length < perPage →
      getOrgMembersAux env org (fuel + 1) page acc =
        (.ok (acc ++ pageLogins data), [ApiCall.orgMembers org perPage page])) ∧
    (∀ fuel page acc data, env.orgMembers org page = .ok data →
      perPage ≤ data.length →
      getOrgMembersAux env org (fuel + 1) page acc =
        ((getOrgMembersAux env org fuel (page + 1) (acc ++ pageLogins data)).fst,
          ApiCall.orgMembers org perPage page ::
            (getOrgMembersAux env org fuel (page + 1) (acc ++ pageLogins data)).snd)) ∧
    (∀ fuel d1 d2 d3, env.orgMembers org 1 = .ok d1 → d1.length = 100 →
      env.orgMembers org 2 = .ok d2 → d2.length = 100 →
      env.orgMembers org 3 = .ok d3 → d3.length = 37 →
      (getOrgMembers env org (fuel + 3)).snd =
        [ApiCall.orgMembers org perPage 1, ApiCall.orgMembers org perPage 2,
          ApiCall.orgMembers org perPage 3]) :=
  ⟨fun fuel page acc h => getOrgMembersAux_404 env org fuel page acc h,
    fun fuel page acc data h hl =>
      getOrgMembersAux_short env org fuel page acc data h hl,
    fun fuel page acc data h hl =>
      getOrgMembersAux_full env org fuel page acc data h hl,
    fun fuel d1 d2 d3 h1 hl1 h2 hl2 h3 hl3 =>
      getOrgMembers_three_pages env org fuel d1 d2 d3 h1 hl1 h2 hl2 h3 hl3⟩

/-- C7 witness: in the world serving pages of sizes 100, 100, 37 the trace of
member enumeration is exactly the three page fetches, and a 404 page ends
enumeration with the members collected so far. -/
theorem c7_witness :
    pagedEnv.orgMembers ("acme") 1 = .ok (List.replicate 100 (some ("m1"))) ∧
    (List.replicate 100 (some ("m1"))).length = 100 ∧
    pagedEnv.orgMembers ("acme") 2 = .ok (List.replicate 100 (some ("m2"))) ∧
    (List.replicate 100 (some ("m2"))).length = 100 ∧
    pagedEnv.orgMembers ("acme") 3 = .ok (List.replicate 37 (some ("m3"))) ∧
    (List.replicate 37 (some ("m3"))).length = 37 ∧
    (getOrgMembers pagedEnv ("acme") (7 + 3)).snd =
      [ApiCall.orgMembers ("acme") perPage 1, ApiCall.orgMembers ("acme") perPage 2,
        ApiCall.orgMembers ("acme") perPage 3] ∧
    pagedEnv.orgMembers ("acme") 4 = .status404 ∧
    getOrgMembersAux pagedEnv ("acme") (0 + 1) 4 [("x")] =
      (.ok [("x")], [ApiCall.orgMembers ("acme") perPage 4]) :=
  ⟨rfl, by decide, rfl, by decide, rfl, by decide,
    (c7_member_pagination pagedEnv ("acme")).2.2.2 7 _ _ _ rfl (by decide) rfl
      (by decide) rfl (by decide),
    rfl,
    (c7_member_pagination pagedEnv ("acme")).1 0 4 [("x")] rfl⟩

/-- C8: during organization member enrichment, a member whose profile lookup
fails but whose commit search succeeds still appears among the resolved
users, with a null display name and emails sourced only from commit search;
no member's failure removes any member — the users list keeps exactly one
entry per member (the batches of 5 all complete). -/
theorem c8_member_enrichment_degrades (env : Env) (fuel : Nat)
    (name m : String) (pn pe : Option String) (r : CommitResult)
    (hf : commitEmailsFound (commitResultOf env name) = false)
    (horg : env.userProfile name = .ok ("Organization") pn pe)
    (hm : m ∈ orgMemberList env fuel name)
    (hpf : env.userProfile m = .notOk)
    (hcs : (tryCommitEmail env m).fst = .ok (some r)) :
    (resolveName env fuel name).fst.users.length =
      (orgMemberList env fuel name).length ∧
    (⟨m, none, profileUrlOf m, dedupe r.emails⟩ : ResolvedUser) ∈
      (resolveName env fuel name).fst.users := by
  have ho : (checkIsOrg env name).fst = true := by
    unfold checkIsOrg
    rw [horg]
    rfl
  rw [resolveName_notFound env fuel name hf, resolveRest_org env fuel name ho]
  dsimp only
  rw [processMembers_users]
  refine ⟨List.length_map _ _, ?_⟩
  have hp : (getUserProfile env m).fst = none := by
    unfold getUserProfile
    rw [hpf]
  have hc : commitEmailsOf env m = r.emails := by
    unfold commitEmailsOf
    rw [hcs]
    rfl
  have he : (enrichMember env m).fst =
      (⟨m, none, profileUrlOf m, dedupe r.emails⟩ : ResolvedUser) := by
    rw [enrichMember_fst, hc]
    unfold profileNameOf
    rw [hp]
    simp [profileEmailList]
  rw [← he]
  exact List.mem_map_of_mem _ hm

/-- C8 witness: a concrete org with one member whose profile lookup fails and
whose commit search succeeds. -/
theorem c8_witness :
    commitEmailsFound (commitResultOf memberEnv ("acme")) = false ∧
    (("mia") ∈ orgMemberList memberEnv 1 ("acme")) ∧
    memberEnv.userProfile ("mia") = .notOk ∧
    (tryCommitEmail memberEnv ("mia")).fst =
      .ok (some ⟨[("mia@x.io")], some ("Mia")⟩) ∧
    ((resolveName memberEnv 1 ("acme")).fst.users.length =
      (orgMemberList memberEnv 1 ("acme")).length ∧
    (⟨("mia"), none, profileUrlOf ("mia"),
        dedupe [("mia@x.io")]⟩ : ResolvedUser) ∈
      (resolveName memberEnv 1 ("acme")).fst.users) :=
  ⟨by decide, by decide, rfl, rfl,
    c8_member_enrichment_degrades memberEnv 1 ("acme") ("mia") none none
      ⟨[("mia@x.io")], some ("Mia")⟩ (by decide) rfl (by decide) rfl rfl⟩

/-- C9: each organization member's emails list is the deduplicated
concatenation of the profile public email (if present) followed by the
commit-search emails, in that order: the users list is exactly the member
list mapped through that merge. -/
theorem c9_member_email_merge (env : Env) (fuel : Nat) (name : String)
    (pn pe : Option String)
    (hf : commitEmailsFound (commitResultOf env name) = false)
    (horg : env.userProfile name = .ok ("Organization") pn pe) :
    (resolveName env fuel name).fst.users =
      (orgMemberList env fuel name).map fun m =>
        ⟨m, profileNameOf env m, profileUrlOf m,
          dedupe (profileEmailList (getUserProfile env m).fst ++
            commitEmailsOf env m)⟩ := by
  have ho : (checkIsOrg env name).fst = true := by
    unfold checkIsOrg
    rw [horg]
    rfl
  rw [resolveName_notFound env fuel name hf, resolveRest_org env fuel name ho]
  dsimp only
  rw [processMembers_users]
  simp only [enrichMember_fst]

/-- C9 witness: the per-member merge shape at a concrete org. -/
theorem c9_witness :
    commitEmailsFound (commitResultOf memberEnv ("acme")) = false ∧
    memberEnv.userProfile ("acme") = .ok ("Organization") none none ∧
    (resolveName memberEnv 1 ("acme")).fst.users =
      (orgMemberList memberEnv 1 ("acme")).map fun m =>
        ⟨m, profileNameOf memberEnv m, profileUrlOf m,
          dedupe (profileEmailList (getUserProfile memberEnv m).fst ++
            commitEmailsOf memberEnv m)⟩ :=
  ⟨by decide, rfl,
    c9_member_email_merge memberEnv 1 ("acme") none none (by decide) rfl⟩

/-- C10: `dedupe` returns the subsequence of first occurrences of the
distinct elements of its input, in first-occurrence order (characterized by
the head equation), hence it is idempotent and fixes duplicate-free lists. -/
theorem c10_dedupe_first_occurrences (xs : List String) :
    (dedupe xs).Sublist xs ∧
    (∀ a, a ∈ dedupe xs ↔ a ∈ xs) ∧
    (dedupe xs).Nodup ∧
    (∀ x ys, xs = x :: ys → dedupe xs = x :: dedupe (ys.filter (· ≠ x))) ∧
    dedupe (dedupe xs) = dedupe xs ∧
    (xs.Nodup → dedupe xs = xs) :=
  ⟨dedupe_sublist xs, fun a => mem_dedupe xs a, dedupe_nodup xs,
    fun x ys h => by rw [h]; exact dedupe_cons x ys,
    dedupe_idem xs, dedupe_eq_self_of_nodup xs⟩

/-- C10 witness: the head equation and the duplicate-free fixed point at
concrete lists. -/
theorem c10_witness :
    dedupe [("a"), ("b"), ("a")] =
      ("a") :: dedupe ([("b"), ("a")].filter (· ≠ ("a"))) ∧
    ([("a"), ("b")] : List String).Nodup ∧
    dedupe [("a"), ("b")] = [("a"), ("b")] :=
  ⟨(c10_dedupe_first_occurrences [("a"), ("b"), ("a")]).2.2.2.1 ("a")
      [("b"), ("a")] rfl,
    by decide,
    (c10_dedupe_first_occurrences [("a"), ("b")]).2.2.2.2.2 (by decide)⟩
